import Mathlib

/-!
Shallow embedding of the snake-raylib simulation core.

The repository contains two implementations of the same game:
  * the self-contained `mod game` inside `src/main.rs` (cell spacing 40 px),
    embedded below in namespace `MainRs`;
  * the module tree `src/game.rs` + `src/game/snake.rs` + `src/game/tick.rs`
    (cell spacing 30 px), embedded in namespace `GameRs`.

All pixel coordinates in the source are `f32`, but every value that ever
occurs is an integer multiple of the cell spacing (or the screen centre),
far below the range where `f32` arithmetic on integers is inexact, and the
only operations used are addition, subtraction, multiplication by the
spacing, comparison and equality.  These are exact on such values, so the
embedding uses `Int`.

Rendering-only data (colors, draw calls) and the window/input plumbing are
omitted; key polling is modelled by passing the pressed-key information to
the functions that consume it, and the `rand` thread RNG is modelled by an
explicit stream of draws (each draw is a (column, row) pair in range, which
is what `gen_range(0..COLS)` / `gen_range(0..ROWS)` guarantees).  A `none`
result models a Rust panic or an execution whose rejection-sampling loop
exhausted the modelled random stream.
-/

set_option maxRecDepth 10000

/-- 2D pixel vector, `raylib::Vector2` restricted to the exact integer values
the game manipulates. -/
structure Vec2 where
  x : Int
  y : Int
deriving DecidableEq, Repr

def Vec2.add (a b : Vec2) : Vec2 := ⟨a.x + b.x, a.y + b.y⟩

def Vec2.sub (a b : Vec2) : Vec2 := ⟨a.x - b.x, a.y - b.y⟩

/-- The four movement directions (`enum Direction`, identical in both
implementations). -/
inductive Direction where
  | UP
  | DOWN
  | LEFT
  | RIGHT
deriving DecidableEq, Repr

/-- `Direction::v(scale)`: unit displacement vector scaled by `scale`. -/
def Direction.v : Direction → Int → Vec2
  | .UP, s => ⟨0, -s⟩
  | .DOWN, s => ⟨0, s⟩
  | .LEFT, s => ⟨-s, 0⟩
  | .RIGHT, s => ⟨s, 0⟩

/-- The screen-wraparound applied to one coordinate: the two sequential `if`
statements of `Snake::update` in both implementations.  `dim` is the screen
dimension on that axis, `s` the cell spacing. -/
def wrapCoord (dim s c : Int) : Int :=
  let c1 := if c < 0 then dim - s else c
  if c1 > dim - s then 0 else c1

/-- `TickCounter` (identical in `src/main.rs` and `src/game/tick.rs`): the
monotonic start instant is implicit, elapsed time is passed to `isNextTick`
explicitly. -/
structure TickCounter where
  nanosPerTick : Nat
  tick : Nat
deriving DecidableEq, Repr

/-- `TickCounter::start(ticks_per_second)`.  `1_000_000_000 / 0` panics in
Rust, modelled by `none`. -/
def TickCounter.start (ticksPerSecond : Nat) : Option TickCounter :=
  if ticksPerSecond = 0 then none
  else some ⟨1000000000 / ticksPerSecond, 0⟩

/-- `TickCounter::is_next_tick`, with the observed elapsed nanoseconds as an
explicit argument.  Returns the boolean result together with the updated
counter (the Rust method mutates `self.tick`).  `saturating_div` on `u128`
is ordinary division for a nonzero divisor. -/
def TickCounter.isNextTick (tc : TickCounter) (elapsedNanos : Nat) :
    Bool × TickCounter :=
  let curr := elapsedNanos / tc.nanosPerTick
  if tc.tick < curr then (true, ⟨tc.nanosPerTick, curr⟩) else (false, tc)

namespace MainRs

def SCREEN_WIDTH : Int := 720
def SCREEN_HEIGHT : Int := 480
def GRID_SPACING_PX : Int := 40

/-- `Grid` from `src/main.rs` (color field omitted). -/
structure Grid where
  numCols : Int
  numRows : Int
  spacing : Int
deriving DecidableEq, Repr

/-- `Grid::new(spacing, color)`: the three `assert!`s are modelled by
returning `none` (a Rust panic) when they fail. -/
def Grid.new (spacing : Int) : Option Grid :=
  if 0 < spacing then
    if SCREEN_WIDTH % spacing = 0 then
      if SCREEN_HEIGHT % spacing = 0 then
        some ⟨SCREEN_WIDTH / spacing, SCREEN_HEIGHT / spacing, spacing⟩
      else none
    else none
  else none

def COLS : Nat := 18
def ROWS : Nat := 12

/-- A random draw of the food module: a (column, row) pair, in range as
guaranteed by `gen_range(0..COLS)` / `gen_range(0..ROWS)`. -/
abbrev Draw := Fin 18 × Fin 12

/-- The closure `gen_pos` of `Food::eat`. -/
def genPos (d : Draw) : Vec2 :=
  ⟨(d.1 : Int) * GRID_SPACING_PX, (d.2 : Int) * GRID_SPACING_PX⟩

/-- `Food::new(color)`: the position starts out as `Some((0.0, 0.0))`. -/
def Food.new : Option Vec2 := some ⟨0, 0⟩

/-- `Food::position`: the stored position, or the impossible-to-reach
sentinel `(-1.0, -1.0)` when none is stored. -/
def Food.position : Option Vec2 → Vec2
  | some pos => pos
  | none => ⟨-1, -1⟩

/-- `Food::eat(blocked)`: rejection sampling over the draw stream; the first
draw whose cell is not blocked is stored.  `none` means the modelled stream
was exhausted (the Rust loop would keep drawing). -/
def Food.eat (draws : List Draw) (blocked : List Vec2) : Option Vec2 :=
  (draws.map genPos).find? (fun p => decide (p ∉ blocked))

/-- `Snake` from `src/main.rs` (colors and the redundant `size` field
omitted; `grid_spacing` is the constant 40). -/
structure Snake where
  positions : List Vec2
  directions : List Direction
  nextDirection : Direction
  active : Bool
  score : Nat
deriving DecidableEq, Repr

/-- The per-segment motion of `Snake::update`'s loop body:
`positions[i] += directions[i].v(spacing)` followed by the four wraparound
`if`s. -/
def moveSeg (p : Vec2) (d : Direction) : Vec2 :=
  let q := p.add (d.v GRID_SPACING_PX)
  ⟨wrapCoord SCREEN_WIDTH GRID_SPACING_PX q.x,
   wrapCoord SCREEN_HEIGHT GRID_SPACING_PX q.y⟩

/-- `Snake::add_tail_block`: push a copy of the last direction and a new
tail position one displacement behind the last position.  The source
`unwrap`s the last elements; every call site has nonempty lists, so the
defaults are never consulted there. -/
def addTailBlock (ps : List Vec2) (ds : List Direction) :
    List Vec2 × List Direction :=
  let lastPos := ps.getLastD ⟨0, 0⟩
  let lastDir := ds.getLastD Direction.RIGHT
  (ps ++ [lastPos.sub (lastDir.v GRID_SPACING_PX)], ds ++ [lastDir])

/-- `Snake::new(1, ..)`: single segment at the screen centre, moving RIGHT.
(The game constructs the snake with `initial_size == 1`, so the
`add_tail_block` loop runs zero times.) -/
def Snake.new : Snake :=
  ⟨[⟨360, 240⟩], [Direction.RIGHT], Direction.RIGHT, true, 0⟩

/-- `Snake::poll`: one frame of input handling; `kw ka ks kd` tell whether
W/A/S/D was pressed this frame.  Note the source computes
`one_block = positions.len() == 0`, which is never true. -/
def Snake.poll (sn : Snake) (kw ka ks kd : Bool) : Snake :=
  let oneBlock : Bool := sn.positions.length == 0
  let d0 := sn.directions.headD Direction.RIGHT
  let n1 := if kw && (oneBlock || !(d0 == Direction.DOWN)) then Direction.UP
            else sn.nextDirection
  let n2 := if ka && (oneBlock || !(d0 == Direction.RIGHT)) then Direction.LEFT
            else n1
  let n3 := if ks && (oneBlock || !(d0 == Direction.UP)) then Direction.DOWN
            else n2
  let n4 := if kd && (oneBlock || !(d0 == Direction.LEFT)) then Direction.RIGHT
            else n3
  { sn with nextDirection := n4 }

/-- The game state relevant to the simulation: the snake and the food's
stored position. -/
structure State where
  snake : Snake
  food : Option Vec2
deriving DecidableEq, Repr

/-- The shifted direction list of `Snake::update`:
`directions.push_front(next_direction); directions.pop_back()`. -/
def shiftDirs (sn : Snake) : List Direction :=
  (sn.nextDirection :: sn.directions).dropLast

/-- All segment positions after the movement loop of `Snake::update`. -/
def movedPositions (sn : Snake) : List Vec2 :=
  List.zipWith moveSeg sn.positions (shiftDirs sn)

/-- `Snake::update(food)`: returns the updated state and the boolean result
(`false` means the snake died).  `none` models a Rust panic (empty snake or
failed length assertion) or exhaustion of the modelled random stream inside
`Food::eat`. -/
def Snake.update (st : State) (draws : List Draw) : Option (State × Bool) :=
  if st.snake.active = false then some (st, false)
  else if st.snake.positions.length = st.snake.directions.length then
    match movedPositions st.snake with
    | [] => none
    | h :: t =>
      let stage : Option (List Vec2 × List Direction × Option Vec2 × Nat) :=
        if h = Food.position st.food then
          let grown := addTailBlock (h :: t) (shiftDirs st.snake)
          match Food.eat draws grown.1 with
          | none => none
          | some f => some (grown.1, grown.2, some f, st.snake.score + 10)
        else some (h :: t, shiftDirs st.snake, st.food, st.snake.score)
      match stage with
      | none => none
      | some (ps, ds, fd, sc) =>
        if h ∈ ps.tail then
          some (⟨⟨ps, ds, st.snake.nextDirection, false, sc⟩, fd⟩, false)
        else
          some (⟨⟨ps, ds, st.snake.nextDirection, true, sc⟩, fd⟩, true)
  else none

/-- The initial session state built by `Game::init`. -/
def init : State := ⟨Snake.new, Food.new⟩

/-- One observable interaction with the session: an input-polling frame
(with the pressed keys) or a simulation tick (with the random draws the
tick may consume).  `Game::update` polls every frame and runs
`Snake::update` whenever the tick counter fires, so every realizable
session is a sequence of these events. -/
inductive Event where
  | poll (kw ka ks kd : Bool)
  | tick (draws : List Draw)
deriving Repr

def step (st : State) : Event → Option State
  | .poll kw ka ks kd => some ⟨st.snake.poll kw ka ks kd, st.food⟩
  | .tick draws => (Snake.update st draws).map Prod.fst

def runFrom (st : State) : List Event → Option State
  | [] => some st
  | e :: es =>
    match step st e with
    | none => none
    | some st1 => runFrom st1 es

def run (es : List Event) : Option State := runFrom init es

/-- A session state reachable from `Game::init` by some sequence of frames
and ticks. -/
def Reachable (st : State) : Prop := ∃ es, run es = some st

end MainRs

namespace GameRs

def GRID_SCALE : Int := 30
def COLS : Int := 24
def ROWS : Int := 16

/-- A random draw of `Game::move_food`: in-range (column, row) pair. -/
abbrev Draw := Fin 24 × Fin 16

/-- The closure `gen_pos` of `Game::move_food`. -/
def genPos (d : Draw) : Vec2 := ⟨(d.1 : Int) * GRID_SCALE, (d.2 : Int) * GRID_SCALE⟩

/-- The keys `Snake::handle_input` distinguishes. -/
inductive Key where
  | W
  | A
  | S
  | D
  | other
deriving DecidableEq, Repr

/-- `Snake` from `src/game/snake.rs` (colors omitted). -/
structure Snake where
  direction : Direction
  prevDirection : Direction
  segments : List Vec2
deriving DecidableEq, Repr

/-- `Snake::new`: one segment at `((COLS/2)*GRID_SCALE, (ROWS/2)*GRID_SCALE)`
moving RIGHT (`INITIAL_LENGTH == 1`, so the extension loop runs zero
times). -/
def Snake.new : Snake := ⟨Direction.RIGHT, Direction.RIGHT, [⟨360, 240⟩]⟩

/-- `Snake::handle_input(input)`: `get_key_pressed` yields at most one key
per frame.  Here `one_block` is correctly `segments.len() == 1`, and the
guard compares against `prev_direction`. -/
def Snake.handleInput (sn : Snake) (input : Option Key) : Snake :=
  match input with
  | none => sn
  | some k =>
    let oneBlock : Bool := sn.segments.length == 1
    match k with
    | .W => if oneBlock || !(sn.prevDirection == Direction.DOWN) then
              { sn with direction := Direction.UP } else sn
    | .A => if oneBlock || !(sn.prevDirection == Direction.RIGHT) then
              { sn with direction := Direction.LEFT } else sn
    | .S => if oneBlock || !(sn.prevDirection == Direction.UP) then
              { sn with direction := Direction.DOWN } else sn
    | .D => if oneBlock || !(sn.prevDirection == Direction.LEFT) then
              { sn with direction := Direction.RIGHT } else sn
    | .other => sn

/-- `Snake::add_tail_block`: duplicate the last segment.  The source panics
on an empty deque; the default is never consulted at the call site. -/
def Snake.addTailBlock (sn : Snake) : Snake :=
  { sn with segments := sn.segments ++ [sn.segments.getLastD ⟨0, 0⟩] }

/-- The wrapped next head position computed by `Snake::update`. -/
def nextHead (p : Vec2) (d : Direction) : Vec2 :=
  let q := p.add (d.v GRID_SCALE)
  ⟨wrapCoord 720 GRID_SCALE q.x, wrapCoord 480 GRID_SCALE q.y⟩

/-- `Snake::update`: push the wrapped next head, drop the old tail, record
the direction just moved in `prev_direction`. -/
def Snake.update (sn : Snake) : Snake :=
  let next := nextHead (sn.segments.headD ⟨0, 0⟩) sn.direction
  { sn with
    segments := (next :: sn.segments).dropLast
    prevDirection := sn.direction }

/-- `Game` from `src/game.rs` (rendering fields omitted; the tick counter is
driven externally via the `tickNow` argument of `update`). -/
structure Game where
  ended : Bool
  score : Nat
  snake : Snake
  food : Vec2
deriving DecidableEq, Repr

/-- `Game::move_food`: rejection sampling against the snake body; `none`
means the modelled draw stream was exhausted. -/
def moveFood (draws : List Draw) (blocked : List Vec2) : Option Vec2 :=
  (draws.map genPos).find? (fun p => decide (p ∉ blocked))

/-- `Game::init`: the three asserts pass for the constant configuration
(30 divides 720 and 480); the game starts RUNNING with food `(0,0)` and is
immediately relocated by `move_food`. -/
def init (draws : List Draw) : Option Game :=
  let g : Game := ⟨false, 0, Snake.new, ⟨0, 0⟩⟩
  match moveFood draws g.snake.segments with
  | none => none
  | some f => some { g with food := f }

/-- `Game::update`: handle at most one pressed key, then, when the tick
counter fired, advance the snake, set ENDED on self-collision, and handle
eating.  Note the source does not return early when the game is already
ENDED. -/
def update (g : Game) (input : Option Key) (tickNow : Bool)
    (draws : List Draw) : Option Game :=
  let sn1 := g.snake.handleInput input
  if tickNow then
    let sn2 := sn1.update
    let ended1 := if (sn2.segments.headD ⟨0, 0⟩) ∈ sn2.segments.tail then true
                  else g.ended
    if sn2.segments.headD ⟨0, 0⟩ = g.food then
      let sn3 := sn2.addTailBlock
      match moveFood draws sn3.segments with
      | none => none
      | some f => some ⟨ended1, g.score + 10, sn3, f⟩
    else some ⟨ended1, g.score, sn2, g.food⟩
  else some { g with snake := sn1 }

/-- `Game::init`'s three asserts, parametrised by the grid scale they check
(the source checks the constant `GRID_SCALE`). -/
def initChecks (scale : Int) : Bool :=
  decide (0 < scale) && decide ((720 : Int) % scale = 0)
    && decide ((480 : Int) % scale = 0)

end GameRs

/-! ## Invariants of the main.rs session

The reachability invariant used for claims C2, C5 and C7: follow-the-leader
structure of the parallel `positions`/`directions` sequences, the food
never lying on the snake, grid alignment, and the range discipline of
segment positions (all segments are on-grid except possibly the most
recently appended tail block, which `add_tail_block` may place one cell
beyond an edge when the donor segment wrapped on the same tick). -/

namespace MainRs

/-- A position inside the visible grid: both coordinates between 0 and
`screen_dimension - spacing`. -/
def inRange (p : Vec2) : Prop :=
  0 ≤ p.x ∧ p.x ≤ 680 ∧ 0 ≤ p.y ∧ p.y ≤ 440

/-- Both coordinates are multiples of the 40 px cell spacing. -/
def alignedPos (p : Vec2) : Prop := p.x % 40 = 0 ∧ p.y % 40 = 0

/-- Follow-the-leader structure: each segment occupies the cell its
predecessor will vacate, in the sense that moving segment i+1 by the
direction stored for segment i lands exactly on segment i.  This is the
invariant that makes the per-tick direction-shift produce correct tail
following. -/
def followAux : List Vec2 → List Direction → Prop
  | p0 :: p1 :: ps, d0 :: ds => moveSeg p1 d0 = p0 ∧ followAux (p1 :: ps) ds
  | _, _ => True

/-- Range discipline of the final segment: a single-segment snake is
on-grid; in a longer snake the last segment is on-grid on each axis or
exactly one cell beyond the edge, in which case the direction that will
move it on the next update (the second-to-last stored direction) points
back across that edge. -/
def lastSegOK (ps : List Vec2) (ds : List Direction) : Prop :=
  if ps.length ≤ 1 then inRange (ps.getLastD ⟨0, 0⟩)
  else
    ((0 ≤ (ps.getLastD ⟨0, 0⟩).x ∧ (ps.getLastD ⟨0, 0⟩).x ≤ 680) ∨
      ((ps.getLastD ⟨0, 0⟩).x = -40 ∧
        ds.dropLast.getLastD Direction.RIGHT = Direction.RIGHT) ∨
      ((ps.getLastD ⟨0, 0⟩).x = 720 ∧
        ds.dropLast.getLastD Direction.RIGHT = Direction.LEFT)) ∧
    ((0 ≤ (ps.getLastD ⟨0, 0⟩).y ∧ (ps.getLastD ⟨0, 0⟩).y ≤ 440) ∨
      ((ps.getLastD ⟨0, 0⟩).y = -40 ∧
        ds.dropLast.getLastD Direction.RIGHT = Direction.DOWN) ∨
      ((ps.getLastD ⟨0, 0⟩).y = 480 ∧
        ds.dropLast.getLastD Direction.RIGHT = Direction.UP))

/-- The session invariant of the main.rs game, preserved by polling and by
`Snake::update` and therefore true in every reachable state. -/
structure Inv (st : State) : Prop where
  nonempty : st.snake.positions ≠ []
  lenEq : st.snake.positions.length = st.snake.directions.length
  follow : followAux st.snake.positions st.snake.directions
  foodOK : ∀ f, st.food = some f → f ∉ st.snake.positions
  alignPos : ∀ p ∈ st.snake.positions, alignedPos p
  foodAlign : ∀ f, st.food = some f → alignedPos f
  foodRange : ∀ f, st.food = some f → inRange f
  frontRange : ∀ p ∈ st.snake.positions.dropLast, inRange p
  lastOK : lastSegOK st.snake.positions st.snake.directions
  nodup : st.snake.active = true → st.snake.positions.Nodup

end MainRs

namespace MainRs

instance : DecidablePred inRange := fun p => by
  unfold inRange; infer_instance

instance : DecidablePred alignedPos := fun p => by
  unfold alignedPos; infer_instance

instance (ps : List Vec2) (ds : List Direction) :
    Decidable (lastSegOK ps ds) := by
  unfold lastSegOK; infer_instance

end MainRs

namespace MainRs

/-- The trigger of the growth branch of `Snake::update`: the head's
post-move position equals the reported food position. -/
def eatsNow (st : State) : Prop :=
  st.snake.positions ≠ [] ∧
  moveSeg (st.snake.positions.headD ⟨0, 0⟩) st.snake.nextDirection
    = Food.position st.food

end MainRs

/-! ## Claim C1 (reversal guard) -/

/-- Claim C1: evaluating the two input handlers on a length-1 snake whose
head most recently moved RIGHT, with the LEFT (reversal) key pressed.  The
`main.rs` `Snake::poll` ignores the input (its `one_block` is computed as
`positions.len() == 0`, which never holds), while `game/snake.rs`
`Snake::handle_input` accepts it, as the claim requires. -/
theorem poll_ignores_reversal_at_length_one :
    (MainRs.Snake.poll
        ⟨[⟨360, 240⟩], [Direction.RIGHT], Direction.RIGHT, true, 0⟩
        false true false false).nextDirection = Direction.RIGHT ∧
    (GameRs.Snake.handleInput
        ⟨Direction.RIGHT, Direction.RIGHT, [⟨360, 240⟩]⟩
        (some GameRs.Key.A)).direction = Direction.LEFT := by
  exact ⟨rfl, rfl⟩

/-! ## Claim C4 (tick scheduler) -/

/-- Claim C4: `is_next_tick` with stored index `tk` and elapsed nanoseconds
`e` returns true and stores `curr = e / nanos_per_tick` exactly when
`curr > tk`, otherwise returns false leaving the stored index unchanged;
the stored index never decreases, and an immediate second call with the
same elapsed-time sample returns false (so several elapsed tick boundaries
still yield a single true). -/
theorem tickCounter_isNextTick_correct (npt tk e : Nat) :
    ((TickCounter.isNextTick ⟨npt, tk⟩ e).1 = true ↔ tk < e / npt) ∧
    ((TickCounter.isNextTick ⟨npt, tk⟩ e).2.tick
      = if tk < e / npt then e / npt else tk) ∧
    tk ≤ (TickCounter.isNextTick ⟨npt, tk⟩ e).2.tick ∧
    (TickCounter.isNextTick (TickCounter.isNextTick ⟨npt, tk⟩ e).2 e).1
      = false := by
  simp only [TickCounter.isNextTick]
  by_cases h : tk < e / npt
  · simp [h]; omega
  · simp [h]

/-! ## Claim C8 (fatal configuration errors) -/

/-- Claim C8: `Grid::new` (main.rs) and the asserts of `Game::init`
(game.rs) succeed exactly when the spacing is positive and divides both
screen dimensions, and `TickCounter::start` succeeds exactly when the tick
rate is nonzero; otherwise construction panics. -/
theorem construction_panics_iff :
    (∀ s : Int, (MainRs.Grid.new s).isSome
        ↔ (0 < s ∧ 720 % s = 0 ∧ 480 % s = 0)) ∧
    (∀ t : Nat, (TickCounter.start t).isSome ↔ t ≠ 0) ∧
    (∀ s : Int, GameRs.initChecks s = true
        ↔ (0 < s ∧ 720 % s = 0 ∧ 480 % s = 0)) := by
  refine ⟨fun s => ?_, fun t => ?_, fun s => ?_⟩
  · simp only [MainRs.Grid.new, MainRs.SCREEN_WIDTH, MainRs.SCREEN_HEIGHT]
    split_ifs with h1 h2 h3 <;> simp_all
  · simp only [TickCounter.start]
    split_ifs with h <;> simp_all
  · simp [GameRs.initChecks, and_assoc]

/-! ## Claim C9 (food sentinel / initial position) -/

/-- Claim C9 counterexample: at session start the food's position is not
absent — `Food::new` initializes it to `Some((0.0, 0.0))`. -/
theorem food_starts_present :
    MainRs.init.food = some ⟨0, 0⟩ ∧ MainRs.init.food ≠ none := by
  exact ⟨rfl, by decide⟩

/-- Claim C9 (amended): whenever `Food::position` is asked for a position
while none is stored it reports the sentinel `(-1, -1)`, which lies outside
the visible grid and therefore equals no coordinate with nonnegative
components; however, at session start the food's position is not absent:
it is initialized to `Some((0, 0))`. -/
theorem food_sentinel_amended :
    MainRs.Food.position none = ⟨-1, -1⟩ ∧
    (∀ p : Vec2, 0 ≤ p.x → 0 ≤ p.y → MainRs.Food.position none ≠ p) ∧
    MainRs.init.food = some ⟨0, 0⟩ := by
  refine ⟨rfl, fun p hx hy hne => ?_, rfl⟩
  rw [MainRs.Food.position] at hne
  cases hne
  exact absurd hx (by decide)

/-- Witness for the amended C9 theorem, at the concrete on-grid
coordinate (0, 0). -/
theorem food_sentinel_amended_witness :
    MainRs.Food.position none ≠ ⟨0, 0⟩ :=
  food_sentinel_amended.2.1 ⟨0, 0⟩ (by decide) (by decide)

/-! ## Claim C10 (the two implementations) -/

/-- Claim C10 counterexample: with identical event sequences (no input, one
tick; the single random draw (0,0) for game.rs's initial food placement,
which main.rs does not consume), the two implementations report different
head positions: (400, 240) versus (390, 240). -/
theorem implementations_diverge :
    (MainRs.run [MainRs.Event.tick []]).map
        (fun st => st.snake.positions.headD ⟨0, 0⟩) = some ⟨400, 240⟩ ∧
    ((GameRs.init [((0 : Fin 24), (0 : Fin 16))]).bind
        (fun g => GameRs.update g none true [])).map
        (fun g => g.snake.segments.headD ⟨0, 0⟩) = some ⟨390, 240⟩ ∧
    (⟨400, 240⟩ : Vec2) ≠ ⟨390, 240⟩ := by
  refine ⟨rfl, rfl, by decide⟩

/-- Claim C10 (amended): the two implementations do NOT implement the same
observable simulation step.  They agree on the initial head position
(360, 240), initial segment count 1 and initial score 0, and both award 10
points per eaten food, but their per-tick displacement differs (main.rs
moves 40 px per tick on its 40 px grid, game.rs moves 30 px on its 30 px
grid), so identical input/tick/draw sequences produce different head
positions from the first tick on. -/
theorem implementations_divergence_amended :
    MainRs.init.snake.positions = [⟨360, 240⟩] ∧
    GameRs.Snake.new.segments = [⟨360, 240⟩] ∧
    MainRs.init.snake.score = 0 ∧
    (MainRs.run [MainRs.Event.tick []]).map
        (fun st => st.snake.positions.headD ⟨0, 0⟩)
      = some ⟨360 + 40, 240⟩ ∧
    ((GameRs.init [((1 : Fin 24), (1 : Fin 16))]).bind
        (fun g => GameRs.update g none true [])).map
        (fun g => g.snake.segments.headD ⟨0, 0⟩)
      = some ⟨360 + 30, 240⟩ ∧
    ((GameRs.init [((13 : Fin 24), (8 : Fin 16))]).bind
        (fun g => GameRs.update g none true [((0 : Fin 24), (0 : Fin 16))])).map
        GameRs.Game.score = some 10 := by
  refine ⟨rfl, rfl, rfl, by decide, by decide, by decide⟩

/-! ## Claim C6 (wraparound) -/

/-- Claim C6: per-segment motion wraps independently per axis exactly as
claimed: a raw coordinate below 0 wraps to `screen_dimension - spacing`, a
raw coordinate above `screen_dimension - spacing` wraps to 0, and in-range
coordinates are unchanged.  In particular a segment at the rightmost valid
column moving RIGHT reappears at column 0 (shown for the per-segment move
of both implementations and through a full `main.rs` `Snake::update`), and
symmetrically at the other three edges. -/
theorem wraparound_correct :
    (∀ y : Int, 0 ≤ y → y ≤ 440 →
      MainRs.moveSeg ⟨680, y⟩ Direction.RIGHT = ⟨0, y⟩) ∧
    (∀ y : Int, 0 ≤ y → y ≤ 440 →
      MainRs.moveSeg ⟨0, y⟩ Direction.LEFT = ⟨680, y⟩) ∧
    (∀ x : Int, 0 ≤ x → x ≤ 680 →
      MainRs.moveSeg ⟨x, 0⟩ Direction.UP = ⟨x, 440⟩) ∧
    (∀ x : Int, 0 ≤ x → x ≤ 680 →
      MainRs.moveSeg ⟨x, 440⟩ Direction.DOWN = ⟨x, 0⟩) ∧
    (∀ (p : Vec2) (d : Direction),
      ((p.add (d.v 40)).x < 0 → (MainRs.moveSeg p d).x = 680) ∧
      ((p.add (d.v 40)).x > 680 → (MainRs.moveSeg p d).x = 0) ∧
      (0 ≤ (p.add (d.v 40)).x → (p.add (d.v 40)).x ≤ 680 →
        (MainRs.moveSeg p d).x = (p.add (d.v 40)).x) ∧
      ((p.add (d.v 40)).y < 0 → (MainRs.moveSeg p d).y = 440) ∧
      ((p.add (d.v 40)).y > 440 → (MainRs.moveSeg p d).y = 0) ∧
      (0 ≤ (p.add (d.v 40)).y → (p.add (d.v 40)).y ≤ 440 →
        (MainRs.moveSeg p d).y = (p.add (d.v 40)).y)) ∧
    (∀ y : Int, 0 ≤ y → y ≤ 450 →
      GameRs.nextHead ⟨690, y⟩ Direction.RIGHT = ⟨0, y⟩) ∧
    (∀ y : Int, 0 ≤ y → y ≤ 440 →
      MainRs.Snake.update
          ⟨⟨[⟨680, y⟩], [Direction.RIGHT], Direction.RIGHT, true, 0⟩, none⟩ []
        = some (⟨⟨[⟨0, y⟩], [Direction.RIGHT], Direction.RIGHT, true, 0⟩,
                  none⟩, true)) := by
  refine ⟨?_, ?_, ?_, ?_, ?_, ?_, ?_⟩
  · intro y h0 h1
    simp [MainRs.moveSeg, wrapCoord, Vec2.add, Direction.v,
      MainRs.SCREEN_WIDTH, MainRs.SCREEN_HEIGHT, MainRs.GRID_SPACING_PX]
    omega
  · intro y h0 h1
    simp [MainRs.moveSeg, wrapCoord, Vec2.add, Direction.v,
      MainRs.SCREEN_WIDTH, MainRs.SCREEN_HEIGHT, MainRs.GRID_SPACING_PX]
    omega
  · intro x h0 h1
    simp [MainRs.moveSeg, wrapCoord, Vec2.add, Direction.v,
      MainRs.SCREEN_WIDTH, MainRs.SCREEN_HEIGHT, MainRs.GRID_SPACING_PX]
    omega
  · intro x h0 h1
    simp [MainRs.moveSeg, wrapCoord, Vec2.add, Direction.v,
      MainRs.SCREEN_WIDTH, MainRs.SCREEN_HEIGHT, MainRs.GRID_SPACING_PX]
    omega
  · intro p d
    obtain ⟨px, py⟩ := p
    cases d <;>
      simp [MainRs.moveSeg, wrapCoord, Vec2.add, Direction.v,
        MainRs.SCREEN_WIDTH, MainRs.SCREEN_HEIGHT, MainRs.GRID_SPACING_PX] <;>
      split_ifs <;> omega
  · intro y h0 h1
    simp [GameRs.nextHead, wrapCoord, Vec2.add, Direction.v, GameRs.GRID_SCALE]
    omega
  · intro y h0 h1
    have hm : MainRs.movedPositions
        ⟨[⟨680, y⟩], [Direction.RIGHT], Direction.RIGHT, true, 0⟩
        = [⟨0, y⟩] := by
      simp [MainRs.movedPositions, MainRs.shiftDirs, MainRs.moveSeg, wrapCoord,
        Vec2.add, Direction.v, MainRs.SCREEN_WIDTH, MainRs.SCREEN_HEIGHT,
        MainRs.GRID_SPACING_PX]
      omega
    unfold MainRs.Snake.update
    rw [hm]
    simp [MainRs.Food.position, MainRs.shiftDirs]

/-- Witness for C6 at concrete coordinates. -/
theorem wraparound_correct_witness :
    MainRs.moveSeg ⟨680, 240⟩ Direction.RIGHT = ⟨0, 240⟩ ∧
    MainRs.moveSeg ⟨0, 240⟩ Direction.LEFT = ⟨680, 240⟩ ∧
    MainRs.moveSeg ⟨360, 0⟩ Direction.UP = ⟨360, 440⟩ ∧
    MainRs.moveSeg ⟨360, 440⟩ Direction.DOWN = ⟨360, 0⟩ ∧
    (MainRs.moveSeg ⟨680, 240⟩ Direction.RIGHT).x = 0 ∧
    GameRs.nextHead ⟨690, 240⟩ Direction.RIGHT = ⟨0, 240⟩ ∧
    MainRs.Snake.update
        ⟨⟨[⟨680, 240⟩], [Direction.RIGHT], Direction.RIGHT, true, 0⟩, none⟩ []
      = some (⟨⟨[⟨0, 240⟩], [Direction.RIGHT], Direction.RIGHT, true, 0⟩,
                none⟩, true) :=
  ⟨wraparound_correct.1 240 (by decide) (by decide),
   wraparound_correct.2.1 240 (by decide) (by decide),
   wraparound_correct.2.2.1 360 (by decide) (by decide),
   wraparound_correct.2.2.2.1 360 (by decide) (by decide),
   (wraparound_correct.2.2.2.2.1 ⟨680, 240⟩ Direction.RIGHT).2.1 (by decide),
   wraparound_correct.2.2.2.2.2.1 240 (by decide) (by decide),
   wraparound_correct.2.2.2.2.2.2 240 (by decide) (by decide)⟩

/-! ## Claim C3 (terminal INACTIVE state) -/

/-- Claim C3: `main.rs` `Snake::update` on an inactive snake returns false
immediately and mutates nothing; on an active snake it returns false and
clears `active` exactly when, after this update's movement (and possible
growth), the head's position occurs among the non-head segments.  In the
`game.rs` variant, `Game::update` on a tick sets the ENDED state exactly
when the freshly moved head coincides with a tail segment or the game was
already ENDED (so ENDED is terminal there as well). -/
theorem update_terminal_inactive :
    (∀ (st : MainRs.State) (draws : List MainRs.Draw),
      st.snake.active = false → MainRs.Snake.update st draws = some (st, false)) ∧
    (∀ (st : MainRs.State) (draws : List MainRs.Draw) (st1 : MainRs.State)
        (b : Bool),
      st.snake.active = true → MainRs.Snake.update st draws = some (st1, b) →
      ((b = false ↔ st1.snake.active = false) ∧
       (st1.snake.active = false ↔
         st1.snake.positions.headD ⟨0, 0⟩ ∈ st1.snake.positions.tail))) ∧
    (∀ (g : GameRs.Game) (input : Option GameRs.Key)
        (draws : List GameRs.Draw) (g1 : GameRs.Game),
      GameRs.update g input true draws = some g1 →
      (g1.ended = true ↔
        ((((g.snake.handleInput input).update.segments.headD ⟨0, 0⟩)
            ∈ (g.snake.handleInput input).update.segments.tail) ∨
          g.ended = true))) := by
  refine ⟨?_, ?_, ?_⟩
  · intro st draws hact
    unfold MainRs.Snake.update
    simp [hact]
  · intro st draws st1 b hact hupd
    unfold MainRs.Snake.update at hupd
    rw [hact] at hupd
    simp only [Bool.true_eq_false, if_false] at hupd
    split at hupd
    case isFalse => exact absurd hupd (by simp)
    split at hupd
    case h_1 => exact absurd hupd (by simp)
    case h_2 h t hmv =>
    split at hupd
    case h_1 => exact absurd hupd (by simp)
    case h_2 ps ds fd sc heq =>
    have hhead : ps.headD ⟨0, 0⟩ = h := by
      split at heq
      · split at heq
        · exact absurd heq (by simp)
        · simp only [Option.some.injEq, Prod.mk.injEq] at heq
          obtain ⟨hps, -⟩ := heq
          subst hps
          simp [MainRs.addTailBlock]
      · simp only [Option.some.injEq, Prod.mk.injEq] at heq
        obtain ⟨hps, -⟩ := heq
        subst hps
        simp
    split at hupd
    case isTrue hcol =>
      injection hupd with hp
      injection hp with h1 h2
      subst h1; subst h2
      refine ⟨by simp, ?_⟩
      dsimp only
      rw [hhead]
      simp [hcol]
    case isFalse hcol =>
      injection hupd with hp
      injection hp with h1 h2
      subst h1; subst h2
      refine ⟨by simp, ?_⟩
      dsimp only
      rw [hhead]
      simp [hcol]
  · intro g input draws g1 hupd
    unfold GameRs.update at hupd
    simp only [if_true] at hupd
    by_cases heat : ((g.snake.handleInput input).update.segments.headD ⟨0, 0⟩)
        = g.food
    · rw [if_pos heat] at hupd
      cases hmf : GameRs.moveFood draws
          (g.snake.handleInput input).update.addTailBlock.segments with
      | none => rw [hmf] at hupd; exact absurd hupd (by simp)
      | some f =>
        rw [hmf] at hupd
        injection hupd with hg
        subst hg
        by_cases hcol : (((g.snake.handleInput input).update.segments.headD
            ⟨0, 0⟩) ∈ (g.snake.handleInput input).update.segments.tail)
        · simp [hcol]
        · simp [hcol]
    · rw [if_neg heat] at hupd
      injection hupd with hg
      subst hg
      by_cases hcol : (((g.snake.handleInput input).update.segments.headD
          ⟨0, 0⟩) ∈ (g.snake.handleInput input).update.segments.tail)
      · simp [hcol]
      · simp [hcol]

/-- Witness for C3: an inactive snake's update is a no-op returning false;
a concrete active snake whose moved head lands on its own body ends up
inactive with a false result; a concrete `game.rs` tick keeps
`ended = false` when no collision happened and the game was running. -/
theorem update_terminal_inactive_witness :
    MainRs.Snake.update
        ⟨⟨[⟨0, 0⟩], [Direction.RIGHT], Direction.RIGHT, false, 7⟩,
          some ⟨200, 200⟩⟩ []
      = some (⟨⟨[⟨0, 0⟩], [Direction.RIGHT], Direction.RIGHT, false, 7⟩,
                some ⟨200, 200⟩⟩, false) ∧
    ((false = false ↔
        (⟨⟨[⟨440, 400⟩, ⟨440, 400⟩, ⟨40, 0⟩],
            [Direction.RIGHT, Direction.RIGHT, Direction.RIGHT],
            Direction.RIGHT, false, 3⟩,
          some ⟨0, 0⟩⟩ : MainRs.State).snake.active = false) ∧
      ((⟨⟨[⟨440, 400⟩, ⟨440, 400⟩, ⟨40, 0⟩],
            [Direction.RIGHT, Direction.RIGHT, Direction.RIGHT],
            Direction.RIGHT, false, 3⟩,
          some ⟨0, 0⟩⟩ : MainRs.State).snake.active = false ↔
        (⟨⟨[⟨440, 400⟩, ⟨440, 400⟩, ⟨40, 0⟩],
            [Direction.RIGHT, Direction.RIGHT, Direction.RIGHT],
            Direction.RIGHT, false, 3⟩,
          some ⟨0, 0⟩⟩ : MainRs.State).snake.positions.headD ⟨0, 0⟩
          ∈ (⟨⟨[⟨440, 400⟩, ⟨440, 400⟩, ⟨40, 0⟩],
              [Direction.RIGHT, Direction.RIGHT, Direction.RIGHT],
              Direction.RIGHT, false, 3⟩,
            some ⟨0, 0⟩⟩ : MainRs.State).snake.positions.tail)) ∧
    ((⟨false, 0, ⟨Direction.RIGHT, Direction.RIGHT, [⟨390, 240⟩]⟩, ⟨0, 0⟩⟩ :
        GameRs.Game).ended = true ↔
      ((((⟨false, 0, GameRs.Snake.new, ⟨0, 0⟩⟩ :
            GameRs.Game).snake.handleInput none).update.segments.headD ⟨0, 0⟩)
          ∈ ((⟨false, 0, GameRs.Snake.new, ⟨0, 0⟩⟩ :
            GameRs.Game).snake.handleInput none).update.segments.tail ∨
        (⟨false, 0, GameRs.Snake.new, ⟨0, 0⟩⟩ : GameRs.Game).ended
          = true)) := by
  refine ⟨update_terminal_inactive.1 _ [] rfl, ?_, ?_⟩
  · exact update_terminal_inactive.2.1
      ⟨⟨[⟨400, 400⟩, ⟨400, 400⟩, ⟨0, 0⟩],
          [Direction.RIGHT, Direction.RIGHT, Direction.RIGHT],
          Direction.RIGHT, true, 3⟩, some ⟨0, 0⟩⟩ [] _ false rfl (by decide)
  · exact update_terminal_inactive.2.2
      ⟨false, 0, GameRs.Snake.new, ⟨0, 0⟩⟩ none [] _ rfl

/-! ## Helper lemmas for the main.rs session invariant -/

namespace MainRs

theorem followAux_cons_cons (p0 p1 : Vec2) (ps : List Vec2) (d0 : Direction)
    (ds : List Direction) :
    followAux (p0 :: p1 :: ps) (d0 :: ds)
      ↔ (moveSeg p1 d0 = p0 ∧ followAux (p1 :: ps) ds) := Iff.rfl

theorem followAux_trivial :
    ∀ (ps : List Vec2) (ds : List Direction),
      ps.length ≤ 1 ∨ ds = [] → followAux ps ds
  | [], _, _ => trivial
  | [_], _, _ => trivial
  | _ :: _ :: _, [], _ => trivial
  | _ :: _ :: _, _ :: _, h => by simp at h

theorem getLastD_irrel {α : Type} :
    ∀ (l : List α) (a b : α), l ≠ [] → l.getLastD a = l.getLastD b
  | _ :: _, _, _, _ => rfl

theorem getLastD_mem {α : Type} :
    ∀ (l : List α) (d : α), l ≠ [] → l.getLastD d ∈ l
  | x :: xs, d, _ => by
    rw [show (x :: xs).getLastD d = (x :: xs).getLast (by simp) from rfl]
    exact List.getLast_mem _

theorem getLastD_not_mem_dropLast_of_nodup {α : Type} (l : List α) (d : α)
    (hn : l.Nodup) (h : l ≠ []) : l.getLastD d ∉ l.dropLast := by
  intro hmem
  have hdl := List.dropLast_concat_getLast h
  rw [← hdl] at hn
  rw [List.nodup_append] at hn
  obtain ⟨-, -, hdisj⟩ := hn
  have hg : l.getLastD d = l.getLast h := by
    cases l with
    | nil => exact absurd rfl h
    | cons x xs => rfl
  rw [hg] at hmem
  exact hdisj hmem (by simp)

theorem moveSeg_inRange (p : Vec2) (d : Direction) : inRange (moveSeg p d) := by
  obtain ⟨px, py⟩ := p
  cases d <;>
    simp only [moveSeg, wrapCoord, Vec2.add, Direction.v, inRange,
      SCREEN_WIDTH, SCREEN_HEIGHT, GRID_SPACING_PX] <;>
    split_ifs <;> omega

theorem moveSeg_aligned (p : Vec2) (d : Direction) (h : alignedPos p) :
    alignedPos (moveSeg p d) := by
  obtain ⟨px, py⟩ := p
  obtain ⟨hx, hy⟩ := h
  cases d <;>
    simp only [moveSeg, wrapCoord, Vec2.add, Direction.v, alignedPos,
      SCREEN_WIDTH, SCREEN_HEIGHT, GRID_SPACING_PX] at hx hy ⊢ <;>
    split_ifs <;> omega

theorem sub_aligned (p : Vec2) (d : Direction) (h : alignedPos p) :
    alignedPos (p.sub (d.v GRID_SPACING_PX)) := by
  obtain ⟨px, py⟩ := p
  obtain ⟨hx, hy⟩ := h
  cases d <;>
    simp only [Vec2.sub, Direction.v, alignedPos, GRID_SPACING_PX] at hx hy ⊢ <;>
    omega

theorem moveSeg_sub_cancel (r : Vec2) (e : Direction) (hr : inRange r) :
    moveSeg (r.sub (e.v GRID_SPACING_PX)) e = r := by
  obtain ⟨rx, ry⟩ := r
  obtain ⟨h1, h2, h3, h4⟩ := hr
  cases e <;>
    simp only [moveSeg, wrapCoord, Vec2.add, Vec2.sub, Direction.v,
      SCREEN_WIDTH, SCREEN_HEIGHT, GRID_SPACING_PX, Vec2.mk.injEq] at h1 h2 h3 h4 ⊢ <;>
    split_ifs <;> omega

theorem genPos_spec (d : Draw) : inRange (genPos d) ∧ alignedPos (genPos d) := by
  obtain ⟨c, r⟩ := d
  have hc : (c : Nat) < 18 := c.isLt
  have hr : (r : Nat) < 12 := r.isLt
  have hc2 : (c : Int) < 18 := by exact_mod_cast hc
  have hr2 : (r : Int) < 12 := by exact_mod_cast hr
  have hc3 : 0 ≤ (c : Int) := Int.ofNat_nonneg _
  have hr3 : 0 ≤ (r : Int) := Int.ofNat_nonneg _
  simp only [genPos, inRange, alignedPos, GRID_SPACING_PX]
  constructor
  · refine ⟨by positivity, by nlinarith, by positivity, by nlinarith⟩
  · constructor <;> omega

theorem eat_spec (draws : List Draw) (blocked : List Vec2) (f : Vec2)
    (h : Food.eat draws blocked = some f) :
    f ∉ blocked ∧ inRange f ∧ alignedPos f := by
  unfold Food.eat at h
  have hp := List.find?_some h
  have hm := List.mem_of_find?_eq_some h
  rw [List.mem_map] at hm
  obtain ⟨d, -, rfl⟩ := hm
  refine ⟨by simpa using hp, (genPos_spec d).1, (genPos_spec d).2⟩

end MainRs

namespace MainRs

theorem zip_moveSeg_shift :
    ∀ (rest : List Vec2) (p0 : Vec2) (ds : List Direction),
      (p0 :: rest).length = ds.length →
      followAux (p0 :: rest) ds →
      List.zipWith moveSeg rest ds.dropLast = (p0 :: rest).dropLast := by
  intro rest
  induction rest with
  | nil => intro p0 ds _ _; simp
  | cons p1 rest1 ih =>
    intro p0 ds hlen hf
    match ds with
    | [] => simp at hlen
    | [e0] => simp at hlen
    | e0 :: e1 :: ds1 =>
      rw [followAux_cons_cons] at hf
      obtain ⟨h1, h2⟩ := hf
      have hlen1 : (p1 :: rest1).length = (e1 :: ds1).length := by
        simp at hlen ⊢; omega
      have hih := ih p1 (e1 :: ds1) hlen1 h2
      rw [List.dropLast_cons_of_ne_nil (by simp)]
      rw [List.zipWith_cons_cons, h1, hih,
        List.dropLast_cons_of_ne_nil (List.cons_ne_nil p1 rest1)]

theorem followAux_dropLast :
    ∀ (ps : List Vec2) (ds : List Direction),
      followAux ps ds → followAux ps.dropLast ds.dropLast
  | [], _, _ => trivial
  | [_], _, _ => trivial
  | _ :: _ :: _, [], _ => followAux_trivial _ _ (Or.inr rfl)
  | a :: b :: [], _ :: _, _ => followAux_trivial _ _ (Or.inl (by simp))
  | _ :: _ :: _ :: _, [_], _ => followAux_trivial _ _ (Or.inr rfl)
  | a :: b :: c :: l1, d :: e :: ds2, hf => by
    rw [followAux_cons_cons] at hf
    obtain ⟨h1, h2⟩ := hf
    rw [List.dropLast_cons_of_ne_nil (by simp : (b :: c :: l1) ≠ []),
      List.dropLast_cons_of_ne_nil (by simp : (c :: l1) ≠ []),
      List.dropLast_cons_of_ne_nil (by simp : (e :: ds2) ≠ [])]
    rw [followAux_cons_cons]
    refine ⟨h1, ?_⟩
    have := followAux_dropLast (b :: c :: l1) (e :: ds2) h2
    rwa [List.dropLast_cons_of_ne_nil (by simp : (c :: l1) ≠ [])] at this

theorem followAux_step (next : Direction) :
    ∀ (ps : List Vec2) (ds : List Direction) (p0 : Vec2),
      followAux (p0 :: ps) ds →
      followAux (moveSeg p0 next :: (p0 :: ps).dropLast) (next :: ds.dropLast)
  | [], _, _, _ => trivial
  | p1 :: ps1, ds, p0, hf => by
    rw [List.dropLast_cons_of_ne_nil (by simp : (p1 :: ps1) ≠ [])]
    rw [followAux_cons_cons]
    refine ⟨rfl, ?_⟩
    have := followAux_dropLast (p0 :: p1 :: ps1) ds hf
    rwa [List.dropLast_cons_of_ne_nil (by simp : (p1 :: ps1) ≠ [])] at this

theorem followAux_append :
    ∀ (ps : List Vec2) (ds : List Direction) (q : Vec2),
      ps.length = ds.length →
      followAux ps ds →
      moveSeg q (ds.getLastD Direction.RIGHT) = ps.getLastD ⟨0, 0⟩ →
      followAux (ps ++ [q]) (ds ++ [ds.getLastD Direction.RIGHT])
  | [], [], q, _, _, _ => trivial
  | [p], [e], q, _, _, hmove => by
    rw [show ([p] ++ [q] : List Vec2) = p :: q :: [] from rfl,
      show ([e] ++ [[e].getLastD Direction.RIGHT] : List Direction)
        = e :: [e].getLastD Direction.RIGHT :: [] from rfl]
    rw [followAux_cons_cons]
    exact ⟨hmove, trivial⟩
  | p0 :: p1 :: ps1, e0 :: e1 :: ds1, q, hlen, hf, hmove => by
    rw [followAux_cons_cons] at hf
    obtain ⟨h1, h2⟩ := hf
    have hlen1 : (p1 :: ps1).length = (e1 :: ds1).length := by
      simp at hlen ⊢; omega
    have hg1 : (e0 :: e1 :: ds1).getLastD Direction.RIGHT
        = (e1 :: ds1).getLastD Direction.RIGHT := rfl
    have hg2 : (p0 :: p1 :: ps1).getLastD (⟨0, 0⟩ : Vec2)
        = (p1 :: ps1).getLastD ⟨0, 0⟩ := rfl
    rw [hg1] at hmove ⊢
    rw [hg2] at hmove
    have hrec := followAux_append (p1 :: ps1) (e1 :: ds1) q hlen1 h2 hmove
    rw [show ((p0 :: p1 :: ps1) ++ [q] : List Vec2)
        = p0 :: ((p1 :: ps1) ++ [q]) from rfl,
      show ((e0 :: e1 :: ds1) ++ [(e1 :: ds1).getLastD Direction.RIGHT] :
          List Direction)
        = e0 :: ((e1 :: ds1) ++ [(e1 :: ds1).getLastD Direction.RIGHT])
        from rfl]
    rw [show ((p1 :: ps1) ++ [q] : List Vec2) = p1 :: (ps1 ++ [q]) from rfl]
    rw [followAux_cons_cons]
    exact ⟨h1, hrec⟩

theorem followAux_getLast :
    ∀ (ps : List Vec2) (ds : List Direction),
      ps.length = ds.length → 2 ≤ ps.length → followAux ps ds →
      moveSeg (ps.getLastD ⟨0, 0⟩) (ds.dropLast.getLastD Direction.RIGHT)
        = ps.dropLast.getLastD ⟨0, 0⟩
  | [a, b], [d0, d1], _, _, hf => by
    rw [followAux_cons_cons] at hf
    exact hf.1
  | a :: b :: c :: l1, d0 :: d1 :: d2 :: ds2, hlen, _, hf => by
    rw [followAux_cons_cons] at hf
    obtain ⟨-, h2⟩ := hf
    have hlen1 : (b :: c :: l1).length = (d1 :: d2 :: ds2).length := by
      simp at hlen ⊢; omega
    have hrec := followAux_getLast (b :: c :: l1) (d1 :: d2 :: ds2) hlen1
      (by simp) h2
    have e1 : (a :: b :: c :: l1).getLastD (⟨0, 0⟩ : Vec2)
        = (b :: c :: l1).getLastD ⟨0, 0⟩ := rfl
    have e2 : (d0 :: d1 :: d2 :: ds2).dropLast
        = d0 :: (d1 :: d2 :: ds2).dropLast :=
      List.dropLast_cons_of_ne_nil (by simp)
    have e3 : (d1 :: d2 :: ds2).dropLast = d1 :: (d2 :: ds2).dropLast :=
      List.dropLast_cons_of_ne_nil (by simp)
    have e4 : (d0 :: (d1 :: d2 :: ds2).dropLast).getLastD Direction.RIGHT
        = (d1 :: d2 :: ds2).dropLast.getLastD Direction.RIGHT := by
      rw [e3]; rfl
    have e5 : (a :: b :: c :: l1).dropLast = a :: (b :: c :: l1).dropLast :=
      List.dropLast_cons_of_ne_nil (by simp)
    have e6 : (b :: c :: l1).dropLast = b :: (c :: l1).dropLast :=
      List.dropLast_cons_of_ne_nil (by simp)
    have e7 : (a :: (b :: c :: l1).dropLast).getLastD (⟨0, 0⟩ : Vec2)
        = (b :: c :: l1).dropLast.getLastD ⟨0, 0⟩ := by
      rw [e6]; rfl
    rw [e1, e2, e4, e5, e7]
    exact hrec

end MainRs

namespace MainRs

/-- The moved positions of an update, under the invariant: the head moves by
the buffered direction, and every other segment lands exactly on its
predecessor's previous cell, so the moved list is the head's new cell
followed by all old cells except the vacated tail cell. -/
theorem moved_eq (sn : Snake) (p0 : Vec2) (rest : List Vec2)
    (hP : sn.positions = p0 :: rest)
    (hlen : sn.positions.length = sn.directions.length)
    (hfollow : followAux sn.positions sn.directions) :
    movedPositions sn = moveSeg p0 sn.nextDirection :: (p0 :: rest).dropLast := by
  have hds : sn.directions ≠ [] := by
    intro hnil
    rw [hP, hnil] at hlen
    simp at hlen
  unfold movedPositions shiftDirs
  rw [hP, List.dropLast_cons_of_ne_nil hds, List.zipWith_cons_cons]
  congr 1
  exact zip_moveSeg_shift rest p0 sn.directions (by rw [← hP]; exact hlen)
    (by rw [← hP]; exact hfollow)

theorem lastSegOK_of_inRange (ps : List Vec2) (ds : List Direction)
    (hne : ps ≠ []) (hall : ∀ p ∈ ps, inRange p) : lastSegOK ps ds := by
  have hint := hall _ (getLastD_mem ps ⟨0, 0⟩ hne)
  obtain ⟨a, b, c, d⟩ := hint
  unfold lastSegOK
  split
  · exact ⟨a, b, c, d⟩
  · exact ⟨Or.inl ⟨a, b⟩, Or.inl ⟨c, d⟩⟩

theorem lastSegOK_append (ps : List Vec2) (ds : List Direction)
    (hne : ps ≠ [])
    (hr : inRange (ps.getLastD ⟨0, 0⟩))
    (ha : alignedPos (ps.getLastD ⟨0, 0⟩)) :
    lastSegOK
      (ps ++ [(ps.getLastD ⟨0, 0⟩).sub
        ((ds.getLastD Direction.RIGHT).v GRID_SPACING_PX)])
      (ds ++ [ds.getLastD Direction.RIGHT]) := by
  generalize hev : ds.getLastD Direction.RIGHT = e
  generalize hrv : ps.getLastD (⟨0, 0⟩ : Vec2) = r at hr ha
  unfold lastSegOK
  split
  · rename_i hl
    exfalso
    match ps, hne with
    | x :: xs, _ => simp at hl
  · rw [List.getLastD_concat, List.dropLast_concat, hev]
    obtain ⟨rx, ry⟩ := r
    simp only [inRange, alignedPos] at hr ha
    obtain ⟨h1, h2, h3, h4⟩ := hr
    obtain ⟨h5, h6⟩ := ha
    cases e <;> simp only [Vec2.sub, Direction.v, GRID_SPACING_PX]
    · -- UP: q = (rx, ry + 40)
      refine ⟨Or.inl ⟨by omega, by omega⟩, ?_⟩
      by_cases hy : ry + 40 ≤ 440
      · exact Or.inl ⟨by omega, by omega⟩
      · exact Or.inr (Or.inr ⟨by omega, trivial⟩)
    · -- DOWN: q = (rx, ry - 40)
      refine ⟨Or.inl ⟨by omega, by omega⟩, ?_⟩
      by_cases hy : 40 ≤ ry
      · exact Or.inl ⟨by omega, by omega⟩
      · exact Or.inr (Or.inl ⟨by omega, trivial⟩)
    · -- LEFT: q = (rx + 40, ry)
      refine ⟨?_, Or.inl ⟨by omega, by omega⟩⟩
      by_cases hx : rx + 40 ≤ 680
      · exact Or.inl ⟨by omega, by omega⟩
      · exact Or.inr (Or.inr ⟨by omega, trivial⟩)
    · -- RIGHT: q = (rx - 40, ry)
      refine ⟨?_, Or.inl ⟨by omega, by omega⟩⟩
      by_cases hx : 40 ≤ rx
      · exact Or.inl ⟨by omega, by omega⟩
      · exact Or.inr (Or.inl ⟨by omega, trivial⟩)

/-- Undoing one displacement from a wrapped coordinate: if the result is
back in range, it must be the original coordinate.  `dim` is 720 or 480;
`v` is the displacement on this axis; the disjunction on `o` is the
per-axis part of `lastSegOK` (already specialised to this axis). -/
theorem wrap_back_coord (dim o v q : Int)
    (hdim : 40 < dim)
    (hv : v = 0 ∨ v = 40 ∨ v = -40)
    (ho : (0 ≤ o ∧ o ≤ dim - 40) ∨ (o = -40 ∧ v = 40) ∨ (o = dim ∧ v = -40))
    (hq : q = wrapCoord dim 40 (o + v) - v)
    (hql : 0 ≤ q) (hqu : q ≤ dim - 40) : q = o := by
  rcases hv with rfl | rfl | rfl <;>
    rcases ho with ⟨ho1, ho2⟩ | ⟨ho1, ho2⟩ | ⟨ho1, ho2⟩ <;>
    simp only [wrapCoord] at hq <;>
    split_ifs at hq <;> omega

end MainRs

namespace MainRs

theorem getLastD_cons_of_ne_nil {α : Type} (a d : α) :
    ∀ (l : List α), l ≠ [] → (a :: l).getLastD d = l.getLastD d
  | _ :: _, _ => rfl

/-- Undoing the last displacement of a wrapped per-segment move: if the
result lies inside the grid, it is exactly the segment's previous
position.  The hypotheses on `o` are the two per-axis clauses of
`lastSegOK`. -/
theorem sub_back_eq (o : Vec2) (e : Direction)
    (hx : (0 ≤ o.x ∧ o.x ≤ 680) ∨ (o.x = -40 ∧ e = Direction.RIGHT) ∨
      (o.x = 720 ∧ e = Direction.LEFT))
    (hy : (0 ≤ o.y ∧ o.y ≤ 440) ∨ (o.y = -40 ∧ e = Direction.DOWN) ∨
      (o.y = 480 ∧ e = Direction.UP))
    (hq : inRange ((moveSeg o e).sub (e.v GRID_SPACING_PX))) :
    (moveSeg o e).sub (e.v GRID_SPACING_PX) = o := by
  obtain ⟨ox, oy⟩ := o
  cases e <;>
    simp only [moveSeg, Vec2.sub, Vec2.add, Direction.v, inRange,
      SCREEN_WIDTH, SCREEN_HEIGHT, GRID_SPACING_PX, Vec2.mk.injEq,
      reduceCtorEq, and_true, and_false, or_false, false_or] at hx hy hq ⊢
  · obtain ⟨hq1, hq2, hq3, hq4⟩ := hq
    constructor
    · exact wrap_back_coord 720 ox 0 _ (by norm_num) (Or.inl rfl)
        (Or.inl hx) rfl hq1 hq2
    · refine wrap_back_coord 480 oy (-40) _ (by norm_num)
        (Or.inr (Or.inr rfl)) ?_ rfl hq3 hq4
      rcases hy with h | h
      · exact Or.inl h
      · exact Or.inr (Or.inr ⟨h, rfl⟩)
  · obtain ⟨hq1, hq2, hq3, hq4⟩ := hq
    constructor
    · exact wrap_back_coord 720 ox 0 _ (by norm_num) (Or.inl rfl)
        (Or.inl hx) rfl hq1 hq2
    · refine wrap_back_coord 480 oy 40 _ (by norm_num)
        (Or.inr (Or.inl rfl)) ?_ rfl hq3 hq4
      rcases hy with h | h
      · exact Or.inl h
      · exact Or.inr (Or.inl ⟨h, rfl⟩)
  · obtain ⟨hq1, hq2, hq3, hq4⟩ := hq
    constructor
    · refine wrap_back_coord 720 ox (-40) _ (by norm_num)
        (Or.inr (Or.inr rfl)) ?_ rfl hq1 hq2
      rcases hx with h | h
      · exact Or.inl h
      · exact Or.inr (Or.inr ⟨h, rfl⟩)
    · exact wrap_back_coord 480 oy 0 _ (by norm_num) (Or.inl rfl)
        (Or.inl hy) rfl hq3 hq4
  · obtain ⟨hq1, hq2, hq3, hq4⟩ := hq
    constructor
    · refine wrap_back_coord 720 ox 40 _ (by norm_num)
        (Or.inr (Or.inl rfl)) ?_ rfl hq1 hq2
      rcases hx with h | h
      · exact Or.inl h
      · exact Or.inr (Or.inl ⟨h, rfl⟩)
    · exact wrap_back_coord 480 oy 0 _ (by norm_num) (Or.inl rfl)
        (Or.inl hy) rfl hq3 hq4

end MainRs

namespace MainRs

/-- Under the session invariant, the tail block appended while eating is at
a cell occupied by no segment of the moved snake: it is either the cell
the old tail just vacated (occupied by nobody after the synchronous move)
or, when the old tail wrapped on this very tick, a cell outside the grid. -/
theorem appended_tail_fresh
    (P : List Vec2) (D : List Direction) (next : Direction) (f0 : Vec2)
    (hne : P ≠ []) (hlen : P.length = D.length)
    (hfollow : followAux P D) (hnodup : P.Nodup)
    (hfront : ∀ p ∈ P.dropLast, inRange p)
    (hlast : lastSegOK P D)
    (hfood : f0 ∉ P)
    (hhead : moveSeg (P.headD ⟨0, 0⟩) next = f0) :
    ((moveSeg (P.headD ⟨0, 0⟩) next :: P.dropLast).getLastD ⟨0, 0⟩).sub
        ((((next :: D).dropLast).getLastD Direction.RIGHT).v GRID_SPACING_PX)
      ∉ (moveSeg (P.headD ⟨0, 0⟩) next :: P.dropLast) := by
  rcases P with - | ⟨p0, P1⟩
  · exact absurd rfl hne
  rcases P1 with - | ⟨p1, Ptl⟩
  · -- length-1 snake: the appended block sits one displacement behind the
    -- new head and in particular differs from it
    rcases D with - | ⟨d0, D1⟩
    · simp at hlen
    rcases D1 with - | ⟨d1, D2⟩
    · intro hmem
      simp only [List.dropLast_single, List.mem_singleton,
        List.headD_cons] at hmem
      rw [show ((next :: [d0]).dropLast) = [next] from rfl,
        show (([moveSeg p0 next] : List Vec2).getLastD ⟨0, 0⟩)
          = moveSeg p0 next from rfl,
        show (([next] : List Direction).getLastD Direction.RIGHT) = next
          from rfl] at hmem
      generalize hM : moveSeg p0 next = m at hmem
      obtain ⟨mx, my⟩ := m
      cases next <;>
        simp only [Vec2.sub, Direction.v, GRID_SPACING_PX,
          Vec2.mk.injEq] at hmem <;>
        omega
    · simp at hlen
  · -- length at least 2
    have hlen2 : 2 ≤ (p0 :: p1 :: Ptl).length := by simp
    have hDlen : 2 ≤ D.length := by omega
    have hDne : D ≠ [] := by
      intro h0; rw [h0] at hDlen; simp at hDlen
    have hDdne : D.dropLast ≠ [] := by
      intro h0
      have hld := List.length_dropLast D
      rw [h0] at hld
      simp at hld
      omega
    have hPdl : (p0 :: p1 :: Ptl).dropLast = p0 :: (p1 :: Ptl).dropLast :=
      List.dropLast_cons_of_ne_nil (by simp)
    have hPdne : (p0 :: p1 :: Ptl).dropLast ≠ [] := by rw [hPdl]; simp
    have hq1 : (moveSeg ((p0 :: p1 :: Ptl).headD ⟨0, 0⟩) next
          :: (p0 :: p1 :: Ptl).dropLast).getLastD ⟨0, 0⟩
        = ((p0 :: p1 :: Ptl).dropLast).getLastD ⟨0, 0⟩ :=
      getLastD_cons_of_ne_nil _ _ _ hPdne
    have hq2 : ((next :: D).dropLast).getLastD Direction.RIGHT
        = D.dropLast.getLastD Direction.RIGHT := by
      rw [List.dropLast_cons_of_ne_nil hDne]
      exact getLastD_cons_of_ne_nil _ _ _ hDdne
    have hrel := followAux_getLast (p0 :: p1 :: Ptl) D hlen hlen2 hfollow
    have hlast2 : ¬ (p0 :: p1 :: Ptl).length ≤ 1 := by simp
    unfold lastSegOK at hlast
    rw [if_neg hlast2] at hlast
    obtain ⟨hx, hy⟩ := hlast
    rw [hq1, hq2]
    intro hmem
    by_cases hqIn : inRange
        ((((p0 :: p1 :: Ptl).dropLast).getLastD ⟨0, 0⟩).sub
          ((D.dropLast.getLastD Direction.RIGHT).v GRID_SPACING_PX))
    · have hqo := sub_back_eq ((p0 :: p1 :: Ptl).getLastD ⟨0, 0⟩)
        (D.dropLast.getLastD Direction.RIGHT) hx hy (by rw [hrel]; exact hqIn)
      rw [hrel] at hqo
      rw [hqo] at hmem
      rcases List.mem_cons.mp hmem with hco | hco
      · -- the old tail cell equals the new head, i.e. the eaten food cell:
        -- impossible since the food was never on the snake
        rw [hhead] at hco
        exact hfood (hco ▸ getLastD_mem _ _ hne)
      · exact getLastD_not_mem_dropLast_of_nodup _ _ hnodup hne hco
    · rcases List.mem_cons.mp hmem with hco | hco
      · rw [hco] at hqIn
        exact hqIn (moveSeg_inRange _ _)
      · exact hqIn (hfront _ hco)

end MainRs

namespace MainRs

/-- `Snake::update` preserves the session invariant. -/
theorem inv_update (st : State) (draws : List Draw) (st1 : State) (b : Bool)
    (hInv : Inv st) (hupd : Snake.update st draws = some (st1, b)) :
    Inv st1 := by
  obtain ⟨hne, hlen, hfollow, hfoodOK, halign, hfalign, hfrange, hfront,
    hlast, hnodup⟩ := hInv
  by_cases hact : st.snake.active = true
  case neg =>
    have hact2 : st.snake.active = false := by
      revert hact; cases st.snake.active <;> simp
    rw [show Snake.update st draws = some (st, false) from by
      unfold Snake.update; simp [hact2]] at hupd
    injection hupd with hp
    injection hp with h1 h2
    subst h1
    exact ⟨hne, hlen, hfollow, hfoodOK, halign, hfalign, hfrange, hfront,
      hlast, hnodup⟩
  case pos =>
    rcases hP : st.snake.positions with - | ⟨p0, rest⟩
    · exact absurd hP hne
    rw [hP] at hlen hfollow hfoodOK halign hfront hlast hnodup
    have hD : st.snake.directions ≠ [] := by
      intro h0; rw [h0] at hlen; simp at hlen
    have hmv := moved_eq st.snake p0 rest hP (by rw [hP]; exact hlen)
      (by rw [hP]; exact hfollow)
    have hdirs1 : shiftDirs st.snake
        = st.snake.nextDirection :: st.snake.directions.dropLast := by
      unfold shiftDirs
      exact List.dropLast_cons_of_ne_nil hD
    -- facts about the moved snake
    have hp0mem : p0 ∈ p0 :: rest := List.mem_cons_self p0 rest
    have hposRange : ∀ p ∈ moveSeg p0 st.snake.nextDirection
        :: (p0 :: rest).dropLast, inRange p := by
      intro p hp
      rcases List.mem_cons.mp hp with h0 | h0
      · rw [h0]; exact moveSeg_inRange _ _
      · exact hfront _ h0
    have hposAlign : ∀ p ∈ moveSeg p0 st.snake.nextDirection
        :: (p0 :: rest).dropLast, alignedPos p := by
      intro p hp
      rcases List.mem_cons.mp hp with h0 | h0
      · rw [h0]; exact moveSeg_aligned p0 _ (halign _ hp0mem)
      · exact halign _ (List.dropLast_subset _ h0)
    have hposLen : (moveSeg p0 st.snake.nextDirection
        :: (p0 :: rest).dropLast).length = (shiftDirs st.snake).length := by
      unfold shiftDirs
      simp only [List.length_cons, List.length_dropLast]
      rw [← hlen]
      simp
    have hposFollow : followAux (moveSeg p0 st.snake.nextDirection
        :: (p0 :: rest).dropLast) (shiftDirs st.snake) := by
      rw [hdirs1]
      exact followAux_step st.snake.nextDirection rest st.snake.directions p0
        hfollow
    have hposNE : (moveSeg p0 st.snake.nextDirection
        :: (p0 :: rest).dropLast) ≠ [] := by simp
    have hLmem := getLastD_mem _ (⟨0, 0⟩ : Vec2) hposNE
    have hLrange := hposRange _ hLmem
    have hLalign := hposAlign _ hLmem
    -- walk through the update
    unfold Snake.update at hupd
    rw [hact] at hupd
    simp only [Bool.true_eq_false, if_false] at hupd
    split at hupd
    case isFalse h0 => exact absurd (by rw [hP]; exact hlen) h0
    split at hupd
    case h_1 h0 =>
      rw [hmv] at h0
      exact absurd h0 (by simp)
    case h_2 h t hmveq =>
    rw [hmv] at hmveq
    injection hmveq with hh ht
    subst hh
    subst ht
    split at hupd
    case h_1 => exact absurd hupd (by simp)
    case h_2 ps ds fd sc heq =>
    split at heq
    case isTrue heat =>
      -- the head landed on the food: the snake grows and the food moves
      have hfoodSome : st.food = some (moveSeg p0 st.snake.nextDirection) := by
        cases hf : st.food with
        | none =>
          exfalso
          rw [hf] at heat
          have := (moveSeg_inRange p0 st.snake.nextDirection).1
          rw [heat] at this
          exact absurd this (by norm_num [Food.position])
        | some f2 =>
          rw [hf] at heat
          rw [show Food.position (some f2) = f2 from rfl] at heat
          rw [heat]
      have hfood2 : moveSeg p0 st.snake.nextDirection ∉ p0 :: rest :=
        hfoodOK _ hfoodSome
      have hfresh := appended_tail_fresh (p0 :: rest) st.snake.directions
        st.snake.nextDirection (moveSeg p0 st.snake.nextDirection)
        (by simp) hlen hfollow (hnodup hact) hfront hlast hfood2 rfl
      rw [show (p0 :: rest).headD ⟨0, 0⟩ = p0 from rfl] at hfresh
      split at heq
      case h_1 => exact absurd heq (by simp)
      case h_2 f hfe =>
      simp only [Option.some.injEq, Prod.mk.injEq] at heq
      obtain ⟨hps, hds, hfd, hsc⟩ := heq
      obtain ⟨hfB, hfR, hfA⟩ := eat_spec draws _ f hfe
      rw [hps] at hfB
      subst hps; subst hds; subst hfd; subst hsc
      -- the grown lists
      simp only [addTailBlock] at hupd hfB hfresh ⊢
      rw [show (st.snake.nextDirection :: st.snake.directions).dropLast
          = shiftDirs st.snake from rfl] at hfresh
      split at hupd
      case isTrue hcol =>
        injection hupd with hp
        injection hp with h1 h2
        subst h1; subst h2
        refine ⟨by simp, ?_, ?_, ?_, ?_, ?_, ?_, ?_, ?_, ?_⟩
        · have hlen2 := hlen
          simp only [List.length_cons] at hlen2
          unfold shiftDirs
          simp only [List.length_append, List.length_cons, List.length_nil,
            List.length_dropLast]
          omega
        · exact followAux_append _ _ _ hposLen hposFollow
            (moveSeg_sub_cancel _ _ hLrange)
        · intro f2 hf2
          injection hf2 with hf3
          subst hf3
          exact hfB
        · intro p hp
          rcases List.mem_append.mp hp with h0 | h0
          · exact hposAlign _ h0
          · rw [List.mem_singleton.mp h0]
            exact sub_aligned _ _ hLalign
        · intro f2 hf2
          injection hf2 with hf3
          subst hf3
          exact hfA
        · intro f2 hf2
          injection hf2 with hf3
          subst hf3
          exact hfR
        · intro p hp
          rw [List.dropLast_concat] at hp
          exact hposRange _ hp
        · exact lastSegOK_append _ _ hposNE hLrange hLalign
        · intro hfalse
          simp at hfalse
      case isFalse hcol =>
        injection hupd with hp
        injection hp with h1 h2
        subst h1; subst h2
        refine ⟨by simp, ?_, ?_, ?_, ?_, ?_, ?_, ?_, ?_, ?_⟩
        · have hlen2 := hlen
          simp only [List.length_cons] at hlen2
          unfold shiftDirs
          simp only [List.length_append, List.length_cons, List.length_nil,
            List.length_dropLast]
          omega
        · exact followAux_append _ _ _ hposLen hposFollow
            (moveSeg_sub_cancel _ _ hLrange)
        · intro f2 hf2
          injection hf2 with hf3
          subst hf3
          exact hfB
        · intro p hp
          rcases List.mem_append.mp hp with h0 | h0
          · exact hposAlign _ h0
          · rw [List.mem_singleton.mp h0]
            exact sub_aligned _ _ hLalign
        · intro f2 hf2
          injection hf2 with hf3
          subst hf3
          exact hfA
        · intro f2 hf2
          injection hf2 with hf3
          subst hf3
          exact hfR
        · intro p hp
          rw [List.dropLast_concat] at hp
          exact hposRange _ hp
        · exact lastSegOK_append _ _ hposNE hLrange hLalign
        · intro hrun
          clear hrun
          -- no self-collision: the grown list has no duplicates
          rw [show ((moveSeg p0 st.snake.nextDirection
              :: (p0 :: rest).dropLast) ++
              [((moveSeg p0 st.snake.nextDirection
                :: (p0 :: rest).dropLast).getLastD ⟨0, 0⟩).sub
                (((shiftDirs st.snake).getLastD Direction.RIGHT).v
                  GRID_SPACING_PX)])
              = moveSeg p0 st.snake.nextDirection
                :: ((p0 :: rest).dropLast ++
                [((moveSeg p0 st.snake.nextDirection
                  :: (p0 :: rest).dropLast).getLastD ⟨0, 0⟩).sub
                  (((shiftDirs st.snake).getLastD Direction.RIGHT).v
                    GRID_SPACING_PX)]) from by simp]
          rw [List.nodup_cons]
          constructor
          · intro hmem
            apply hcol
            simp only [List.cons_append, List.tail_cons]
            exact hmem
          · rw [List.nodup_append]
            refine ⟨((hnodup hact).sublist (List.dropLast_sublist _)), by simp, ?_⟩
            intro a ha hamem
            rw [List.mem_singleton.mp hamem] at ha
            exact hfresh (List.mem_cons_of_mem _ ha)
    case isFalse heat =>
      simp only [Option.some.injEq, Prod.mk.injEq] at heq
      obtain ⟨hps, hds, hfd, hsc⟩ := heq
      subst hps; subst hds; subst hfd; subst hsc
      split at hupd
      case isTrue hcol =>
        injection hupd with hp
        injection hp with h1 h2
        subst h1; subst h2
        refine ⟨by simp, hposLen, hposFollow, ?_, hposAlign, hfalign, hfrange,
          ?_, lastSegOK_of_inRange _ _ hposNE hposRange, ?_⟩
        · intro f2 hf2 hmem
          rcases List.mem_cons.mp hmem with h0 | h0
          · rw [h0] at hf2
            exact absurd hf2 (by
              intro h3
              apply heat
              rw [h3]
              rfl)
          · exact hfoodOK f2 hf2 (List.dropLast_subset _ h0)
        · intro p hp
          exact hposRange _ (List.dropLast_subset _ hp)
        · intro hfalse
          simp at hfalse
      case isFalse hcol =>
        injection hupd with hp
        injection hp with h1 h2
        subst h1; subst h2
        refine ⟨by simp, hposLen, hposFollow, ?_, hposAlign, hfalign, hfrange,
          ?_, lastSegOK_of_inRange _ _ hposNE hposRange, ?_⟩
        · intro f2 hf2 hmem
          rcases List.mem_cons.mp hmem with h0 | h0
          · rw [h0] at hf2
            exact absurd hf2 (by
              intro h3
              apply heat
              rw [h3]
              rfl)
          · exact hfoodOK f2 hf2 (List.dropLast_subset _ h0)
        · intro p hp
          exact hposRange _ (List.dropLast_subset _ hp)
        · intro hrun
          clear hrun
          rw [List.nodup_cons]
          refine ⟨?_, (hnodup hact).sublist (List.dropLast_sublist _)⟩
          intro hmem
          exact hcol (by simpa using hmem)
end MainRs

namespace MainRs

/-- Input polling only changes the buffered direction, so it preserves the
session invariant. -/
theorem inv_poll (st : State) (kw ka ks kd : Bool) (h : Inv st) :
    Inv ⟨st.snake.poll kw ka ks kd, st.food⟩ := by
  obtain ⟨h1, h2, h3, h4, h5, h6, h7, h8, h9, h10⟩ := h
  exact ⟨h1, h2, h3, h4, h5, h6, h7, h8, h9, h10⟩

/-- The initial state of `Game::init` satisfies the session invariant. -/
theorem inv_init : Inv init := by
  refine ⟨by decide, by decide, trivial, ?_, ?_, ?_, ?_, ?_, by decide, ?_⟩
  · intro f hf
    rw [show init.food = some ⟨0, 0⟩ from rfl] at hf
    injection hf with hf2
    subst hf2
    decide
  · intro p hp
    rw [show init.snake.positions = [⟨360, 240⟩] from rfl] at hp
    rw [List.mem_singleton.mp hp]
    decide
  · intro f hf
    rw [show init.food = some ⟨0, 0⟩ from rfl] at hf
    injection hf with hf2
    subst hf2
    decide
  · intro f hf
    rw [show init.food = some ⟨0, 0⟩ from rfl] at hf
    injection hf with hf2
    subst hf2
    decide
  · intro p hp
    rw [show init.snake.positions.dropLast = [] from rfl] at hp
    exact absurd hp (by simp)
  · intro hact
    decide

theorem inv_runFrom :
    ∀ (es : List Event) (st st1 : State),
      Inv st → runFrom st es = some st1 → Inv st1
  | [], st, st1, h, hrun => by
    unfold runFrom at hrun
    injection hrun with h1
    subst h1
    exact h
  | e :: es, st, st1, h, hrun => by
    unfold runFrom at hrun
    split at hrun
    case h_1 => exact absurd hrun (by simp)
    case h_2 st2 heq =>
      have hs2 : Inv st2 := by
        cases e with
        | poll kw ka ks kd =>
          rw [show step st (Event.poll kw ka ks kd)
              = some ⟨st.snake.poll kw ka ks kd, st.food⟩ from rfl] at heq
          injection heq with h2
          rw [← h2]
          exact inv_poll st kw ka ks kd h
        | tick draws =>
          rw [show step st (Event.tick draws)
              = (Snake.update st draws).map Prod.fst from rfl] at heq
          rcases hu : Snake.update st draws with - | ⟨st3, b3⟩
          · rw [hu] at heq
            exact absurd heq (by simp)
          · rw [hu] at heq
            simp only [Option.map_some', Option.some.injEq] at heq
            rw [← heq]
            exact inv_update st draws st3 b3 h hu
      exact inv_runFrom es st2 st1 hs2 hrun

/-- Every reachable state of the main.rs session satisfies the invariant. -/
theorem inv_reachable (st : State) (h : Reachable st) : Inv st := by
  obtain ⟨es, hrun⟩ := h
  exact inv_runFrom es init st inv_init hrun

end MainRs

/-! ## Claim C5 (food placement) -/

/-- Claim C5: in every reachable state of the main.rs session the stored
food position lies on no snake segment (in particular this holds in the
initial state, where the food starts at (0,0) and the snake at (360,240));
and every terminating call to `Food::eat` (main.rs) or `Game::move_food`
(game.rs) stores a position outside the blocked/occupied list it was
given. -/
theorem food_never_on_snake :
    (∀ st : MainRs.State, MainRs.Reachable st →
      ∀ f : Vec2, st.food = some f → f ∉ st.snake.positions) ∧
    (∀ (draws : List MainRs.Draw) (blocked : List Vec2) (f : Vec2),
      MainRs.Food.eat draws blocked = some f → f ∉ blocked) ∧
    (∀ (draws : List GameRs.Draw) (blocked : List Vec2) (f : Vec2),
      GameRs.moveFood draws blocked = some f → f ∉ blocked) := by
  refine ⟨?_, ?_, ?_⟩
  · intro st hst f hf
    exact (MainRs.inv_reachable st hst).foodOK f hf
  · intro draws blocked f h
    exact (MainRs.eat_spec draws blocked f h).1
  · intro draws blocked f h
    unfold GameRs.moveFood at h
    have hp := List.find?_some h
    simpa using hp

/-- Witness for C5: the initial state's food (0,0) is not on the snake, and
concrete placement calls of both implementations return unblocked cells. -/
theorem food_never_on_snake_witness :
    ((⟨0, 0⟩ : Vec2) ∉ MainRs.init.snake.positions) ∧
    ((⟨40, 80⟩ : Vec2) ∉ ([⟨0, 0⟩] : List Vec2)) ∧
    ((⟨30, 60⟩ : Vec2) ∉ ([⟨0, 0⟩] : List Vec2)) :=
  ⟨food_never_on_snake.1 MainRs.init ⟨[], rfl⟩ ⟨0, 0⟩ rfl,
   food_never_on_snake.2.1 [((1 : Fin 18), (2 : Fin 12))] [⟨0, 0⟩] ⟨40, 80⟩
     (by decide),
   food_never_on_snake.2.2 [((1 : Fin 24), (2 : Fin 16))] [⟨0, 0⟩] ⟨30, 60⟩
     (by decide)⟩

/-! ## Claim C7 (grid invariant) -/

/-- Claim C7 counterexample: steering the snake to the top row and then
right until the head wraps around the right edge onto the initial food cell
(0,0) produces, on the eating tick, a reachable state whose appended tail
segment sits at (-40, 0) — outside the visible grid, violating
`0 <= x < screen_width`. -/
theorem offgrid_tail_counterexample :
    MainRs.run
        ([MainRs.Event.poll true false false false] ++
          List.replicate 6 (MainRs.Event.tick []) ++
          [MainRs.Event.poll false false false true] ++
          List.replicate 8 (MainRs.Event.tick []) ++
          [MainRs.Event.tick [((5 : Fin 18), (5 : Fin 12))]])
      = some ⟨⟨[⟨0, 0⟩, ⟨-40, 0⟩], [Direction.RIGHT, Direction.RIGHT],
          Direction.RIGHT, true, 10⟩, some ⟨200, 200⟩⟩ ∧
    ((⟨-40, 0⟩ : Vec2) ∈
      ([⟨0, 0⟩, ⟨-40, 0⟩] : List Vec2)) ∧ ¬ (0 ≤ (-40 : Int)) := by
  refine ⟨by decide, by decide, by decide⟩

/-- Claim C7 (amended): in every reachable main.rs state, all segment
positions and the stored food position are aligned to the 40 px grid and
the food is inside the screen; every segment except possibly the last is
inside the screen; the last segment is inside the screen or at most one
cell beyond an edge (the tail block appended by `add_tail_block` during an
eat whose donor segment wrapped, as in the counterexample; the next update
moves it back inside). -/
theorem grid_invariant_amended (st : MainRs.State)
    (h : MainRs.Reachable st) :
    (∀ p ∈ st.snake.positions, MainRs.alignedPos p) ∧
    (∀ f : Vec2, st.food = some f →
      MainRs.alignedPos f ∧ MainRs.inRange f) ∧
    (∀ p ∈ st.snake.positions.dropLast, MainRs.inRange p) ∧
    (-40 ≤ (st.snake.positions.getLastD ⟨0, 0⟩).x ∧
      (st.snake.positions.getLastD ⟨0, 0⟩).x ≤ 720 ∧
      -40 ≤ (st.snake.positions.getLastD ⟨0, 0⟩).y ∧
      (st.snake.positions.getLastD ⟨0, 0⟩).y ≤ 480) := by
  have hInv := MainRs.inv_reachable st h
  refine ⟨fun p hp => hInv.alignPos p hp, ?_,
    fun p hp => hInv.frontRange p hp, ?_⟩
  · intro f hf
    exact ⟨hInv.foodAlign f hf, hInv.foodRange f hf⟩
  · have hl := hInv.lastOK
    unfold MainRs.lastSegOK at hl
    split at hl
    · obtain ⟨a, b, c, d⟩ := hl
      exact ⟨by omega, by omega, by omega, by omega⟩
    · obtain ⟨hx, hy⟩ := hl
      rcases hx with ⟨a, b⟩ | ⟨a, -⟩ | ⟨a, -⟩ <;>
        rcases hy with ⟨c, d⟩ | ⟨c, -⟩ | ⟨c, -⟩ <;>
        exact ⟨by omega, by omega, by omega, by omega⟩

/-- Witness for the amended C7 theorem, at the initial state. -/
theorem grid_invariant_amended_witness :
    MainRs.alignedPos ⟨360, 240⟩ ∧
    (-40 ≤ (MainRs.init.snake.positions.getLastD ⟨0, 0⟩).x ∧
      (MainRs.init.snake.positions.getLastD ⟨0, 0⟩).x ≤ 720 ∧
      -40 ≤ (MainRs.init.snake.positions.getLastD ⟨0, 0⟩).y ∧
      (MainRs.init.snake.positions.getLastD ⟨0, 0⟩).y ≤ 480) :=
  ⟨(grid_invariant_amended MainRs.init ⟨[], rfl⟩).1 ⟨360, 240⟩ (by decide),
   (grid_invariant_amended MainRs.init ⟨[], rfl⟩).2.2.2⟩

namespace GameRs

/-- Input handling never changes the segment list. -/
theorem handleInput_segments (sn : Snake) (input : Option Key) :
    (sn.handleInput input).segments = sn.segments := by
  unfold Snake.handleInput
  rcases input with - | k
  · rfl
  · cases k <;> dsimp only <;> (try split) <;> rfl

end GameRs

/-! ## Claim C2 (growth) -/

/-- Claim C2 counterexample: in the game.rs implementation an eat duplicates
the last segment: from a fresh game with food at (390,240), one tick later
the snake's segments are [(390,240), (390,240)] and the score is 10 — the
newly appended tail equals an existing segment's position at the moment of
creation, contradicting the distinctness part of the claim. -/
theorem add_tail_duplicates_counterexample :
    ((GameRs.init [((13 : Fin 24), (8 : Fin 16))]).bind
        (fun g => GameRs.update g none true
          [((0 : Fin 24), (0 : Fin 16))])).map
        (fun g => (g.snake.segments, g.score))
      = some ([⟨390, 240⟩, ⟨390, 240⟩], 10) ∧
    ¬ (([⟨390, 240⟩, ⟨390, 240⟩] : List Vec2).getLastD ⟨0, 0⟩
        ∉ ([⟨390, 240⟩, ⟨390, 240⟩] : List Vec2).dropLast) := by
  refine ⟨by decide, by decide⟩

/-- Claim C2 (amended): in the main.rs implementation, an update from a
reachable active state in which the moved head lands on the food grows
`positions` by exactly one, adds exactly 10 to the score, and appends a
tail block (the old last segment's position minus its direction's
displacement) distinct from every other segment position at the moment it
is appended.  In the game.rs implementation such an update also grows the
segment list by one and the score by 10, but the appended tail block
DUPLICATES the last moved segment's position (the two separate on the next
update). -/
theorem growth_amended :
    (∀ (st : MainRs.State) (draws : List MainRs.Draw) (st1 : MainRs.State)
        (b : Bool),
      MainRs.Reachable st → st.snake.active = true → MainRs.eatsNow st →
      MainRs.Snake.update st draws = some (st1, b) →
      st1.snake.positions.length = st.snake.positions.length + 1 ∧
      st1.snake.score = st.snake.score + 10 ∧
      st1.snake.positions.getLastD ⟨0, 0⟩ ∉ st1.snake.positions.dropLast) ∧
    (∀ (g : GameRs.Game) (input : Option GameRs.Key)
        (draws : List GameRs.Draw) (g1 : GameRs.Game),
      ((g.snake.handleInput input).update.segments.headD ⟨0, 0⟩) = g.food →
      GameRs.update g input true draws = some g1 →
      g1.snake.segments.length = g.snake.segments.length + 1 ∧
      g1.score = g.score + 10 ∧
      g1.snake.segments.getLastD ⟨0, 0⟩
        = (g.snake.handleInput input).update.segments.getLastD ⟨0, 0⟩) := by
  constructor
  · intro st draws st1 b hreach hact heats hupd
    have hInv := MainRs.inv_reachable st hreach
    obtain ⟨hne, hlen, hfollow, hfoodOK, halign, hfalign, hfrange, hfront,
      hlast, hnodup⟩ := hInv
    rcases hP : st.snake.positions with - | ⟨p0, rest⟩
    · exact absurd hP hne
    rw [hP] at hlen hfollow hfoodOK halign hfront hlast hnodup
    obtain ⟨-, heats2⟩ := heats
    rw [hP] at heats2
    simp only [List.headD_cons] at heats2
    have hmv := MainRs.moved_eq st.snake p0 rest hP (by rw [hP]; exact hlen)
      (by rw [hP]; exact hfollow)
    have hfoodSome : st.food
        = some (MainRs.moveSeg p0 st.snake.nextDirection) := by
      cases hf : st.food with
      | none =>
        exfalso
        rw [hf] at heats2
        have := (MainRs.moveSeg_inRange p0 st.snake.nextDirection).1
        rw [heats2] at this
        exact absurd this (by norm_num [MainRs.Food.position])
      | some f2 =>
        rw [hf] at heats2
        rw [show MainRs.Food.position (some f2) = f2 from rfl] at heats2
        rw [heats2]
    have hfood2 : MainRs.moveSeg p0 st.snake.nextDirection ∉ p0 :: rest :=
      hfoodOK _ hfoodSome
    have hfresh := MainRs.appended_tail_fresh (p0 :: rest)
      st.snake.directions st.snake.nextDirection
      (MainRs.moveSeg p0 st.snake.nextDirection)
      (by simp) hlen hfollow (hnodup hact) hfront hlast hfood2 rfl
    rw [show (p0 :: rest).headD ⟨0, 0⟩ = p0 from rfl] at hfresh
    rw [show (st.snake.nextDirection :: st.snake.directions).dropLast
        = MainRs.shiftDirs st.snake from rfl] at hfresh
    unfold MainRs.Snake.update at hupd
    rw [hact] at hupd
    simp only [Bool.true_eq_false, if_false] at hupd
    split at hupd
    case isFalse h0 => exact absurd (by rw [hP]; exact hlen) h0
    split at hupd
    case h_1 h0 =>
      rw [hmv] at h0
      exact absurd h0 (by simp)
    case h_2 h t hmveq =>
    rw [hmv] at hmveq
    injection hmveq with hh ht
    subst hh
    subst ht
    split at hupd
    case h_1 => exact absurd hupd (by simp)
    case h_2 ps ds fd sc heq =>
    split at heq
    case isFalse heat => exact absurd heats2 heat
    case isTrue heat =>
    split at heq
    case h_1 => exact absurd heq (by simp)
    case h_2 f hfe =>
    simp only [Option.some.injEq, Prod.mk.injEq] at heq
    obtain ⟨hps, hds, hfd, hsc⟩ := heq
    subst hps; subst hds; subst hfd; subst hsc
    simp only [MainRs.addTailBlock] at hupd hfresh
    split at hupd
    case isTrue hcol =>
      injection hupd with hp
      injection hp with h1 h2
      subst h1
      refine ⟨?_, rfl, ?_⟩
      · dsimp only
        simp only [List.length_append, List.length_cons, List.length_nil,
          List.length_dropLast]
        omega
      · dsimp only
        rw [List.getLastD_concat, List.dropLast_concat]
        exact hfresh
    case isFalse hcol =>
      injection hupd with hp
      injection hp with h1 h2
      subst h1
      refine ⟨?_, rfl, ?_⟩
      · dsimp only
        simp only [List.length_append, List.length_cons, List.length_nil,
          List.length_dropLast]
        omega
      · dsimp only
        rw [List.getLastD_concat, List.dropLast_concat]
        exact hfresh
  · intro g input draws g1 heat hupd
    unfold GameRs.update at hupd
    simp only [if_true] at hupd
    rw [if_pos heat] at hupd
    cases hmf : GameRs.moveFood draws
        (g.snake.handleInput input).update.addTailBlock.segments with
    | none =>
      rw [hmf] at hupd
      exact absurd hupd (by simp)
    | some f =>
      rw [hmf] at hupd
      injection hupd with hg
      subst hg
      refine ⟨?_, rfl, ?_⟩
      · simp only [GameRs.Snake.addTailBlock, GameRs.Snake.update,
          GameRs.handleInput_segments, List.length_append, List.length_cons,
          List.length_nil, List.length_dropLast]
        omega
      · simp only [GameRs.Snake.addTailBlock]
        rw [List.getLastD_concat]

/-- Witness for the amended C2 theorem: the main.rs snake at (680,0) moving
RIGHT wraps onto the food at (0,0) — afterwards it has 2 segments, score
10, and the appended block (-40,0) coincides with no other segment; the
game.rs snake eating at (390,240) also grows to 2 segments and score 10,
but its appended block duplicates the last segment. -/
theorem growth_amended_witness :
    (([⟨0, 0⟩, ⟨-40, 0⟩] : List Vec2).length
        = ([⟨680, 0⟩] : List Vec2).length + 1 ∧
      (10 : Nat) = 0 + 10 ∧
      ([⟨0, 0⟩, ⟨-40, 0⟩] : List Vec2).getLastD ⟨0, 0⟩
        ∉ ([⟨0, 0⟩, ⟨-40, 0⟩] : List Vec2).dropLast) ∧
    (([⟨390, 240⟩, ⟨390, 240⟩] : List Vec2).length
        = ([⟨360, 240⟩] : List Vec2).length + 1 ∧
      (10 : Nat) = 0 + 10 ∧
      ([⟨390, 240⟩, ⟨390, 240⟩] : List Vec2).getLastD ⟨0, 0⟩
        = ((⟨false, 0, GameRs.Snake.new, ⟨390, 240⟩⟩ :
            GameRs.Game).snake.handleInput none).update.segments.getLastD
          ⟨0, 0⟩) :=
  ⟨growth_amended.1
      ⟨⟨[⟨680, 0⟩], [Direction.RIGHT], Direction.RIGHT, true, 0⟩,
        some ⟨0, 0⟩⟩
      [((5 : Fin 18), (5 : Fin 12))]
      ⟨⟨[⟨0, 0⟩, ⟨-40, 0⟩], [Direction.RIGHT, Direction.RIGHT],
        Direction.RIGHT, true, 10⟩, some ⟨200, 200⟩⟩ true
      ⟨[MainRs.Event.poll true false false false] ++
          List.replicate 6 (MainRs.Event.tick []) ++
          [MainRs.Event.poll false false false true] ++
          List.replicate 8 (MainRs.Event.tick []), by decide⟩
      rfl ⟨by decide, by decide⟩ (by decide),
   growth_amended.2 ⟨false, 0, GameRs.Snake.new, ⟨390, 240⟩⟩ none
      [((0 : Fin 24), (0 : Fin 16))]
      ⟨false, 10, ⟨Direction.RIGHT, Direction.RIGHT,
        [⟨390, 240⟩, ⟨390, 240⟩]⟩, ⟨0, 0⟩⟩
      (by decide) (by decide)⟩
